import Mathlib

/-!
Verification development for the jsdelivr asset-store plugin
(`src/plugins/jsdelivr/src/index.ts`).

The plugin is a content-addressable asset store backed by a git repository
mirrored through the jsDelivr CDN.  We shallowly embed its pure core:
branch-name rendering, public-URL construction, the FIFO task queue with
hash-deduplicated admission, capacity-bounded draining, branch selection
and checkout, batch settlement, and the polling main loop.  Effects
(database reads, git operations, filesystem moves) are passed in
explicitly as data.
-/

namespace Jsdelivr

/-! ### Base-36 rendering and `String.prototype.padStart`

`toBranchName` in the source is `id.toString(36).padStart(8)`.
JavaScript's `Number.prototype.toString(36)` renders a non-negative
integer in base 36 with lowercase digits; `padStart(8)` left-pads with
the *default* fill string, a space, up to length 8. -/

/-- Digit character for base-36 rendering: `0`-`9` then lowercase `a`-`z`,
as produced by JavaScript's `Number.prototype.toString(36)`. -/
def digitChar36 (n : Nat) : Char :=
  if n < 10 then Char.ofNat (48 + n) else Char.ofNat (87 + n)

/-- Fuel-driven digit accumulation for base-36 rendering (most significant
digit first). -/
def toString36Core (fuel : Nat) (n : Nat) (acc : List Char) : List Char :=
  match fuel with
  | 0 => acc
  | fuel + 1 =>
    if n = 0 then acc
    else toString36Core fuel (n / 36) (digitChar36 (n % 36) :: acc)

/-- JavaScript `n.toString(36)` for a non-negative integer `n`. -/
def toString36 (n : Nat) : String :=
  if n = 0 then "0" else String.mk (toString36Core (n + 1) n [])

/-- JavaScript `s.padStart(target, fill)`: left-pad `s` with `fill` up to
length `target` (no-op when `s` is already long enough). -/
def padStart (s : String) (target : Nat) (fill : Char) : String :=
  String.mk (List.replicate (target - s.length) fill) ++ s

/-- `toBranchName` from the source: `id.toString(36).padStart(8)`.
JavaScript's `padStart` with a single argument pads with spaces. -/
def toBranchName (id : Nat) : String :=
  padStart (toString36 id) 8 ' '

/-- The branch rendering stated by the spec (for comparison with the
code's `toBranchName`): the id written in base-36, zero-padded on the
left to width 8. -/
def specBranchName (id : Nat) : String :=
  padStart (toString36 id) 8 '0'

/-! ### Public URL construction -/

/-- The `user`/`repo` coordinates of the GitHub mirror (from `Config.github`). -/
structure GitHubConfig where
  user : String
  repo : String
deriving Repr, DecidableEq

/-- The fields of a durable `File` record that `toPublicUrl` reads:
content hash, display name, and integer branch id. -/
structure File where
  hash : String
  name : String
  branch : Nat
deriving Repr, DecidableEq

/-- `toPublicUrl` from the source: the template string
interpolates `file.branch` (a number, rendered in decimal) directly —
it does not go through `toBranchName`. -/
def toPublicUrl (gh : GitHubConfig) (file : File) : String :=
  "https://cdn.jsdelivr.net/gh/" ++ gh.user ++ "/" ++ gh.repo ++ "@" ++
    toString file.branch ++ "/" ++ file.hash ++ "-" ++ file.name

/-- The URL the spec requires for a record: the branch is rendered in
base-36 zero-padded to width 8 (matching the names of the pushed git
branches, up to the padding fill). -/
def specPublicUrl (gh : GitHubConfig) (file : File) : String :=
  "https://cdn.jsdelivr.net/gh/" ++ gh.user ++ "/" ++ gh.repo ++ "@" ++
    specBranchName file.branch ++ "/" ++ file.hash ++ "-" ++ file.name

/-! ### Task queue

`Task` objects (class `Task` of the absent `./file` module) carry the
`FileBase` fields plus the branch assigned at processing time and the
waiter lists; spec §3 gives their shape.  JavaScript aliases the same
`Task` object from `taskQueue` and `taskMap`; since `taskMap` is a `Map`
keyed by content hash, a live task is identified by its hash, and we
model mutation of a shared task as the hash-directed update of both
containers. -/

/-- The argument record of `createTask`: content hash, display name and
byte size. -/
structure FileBase where
  hash : String
  name : String
  size : Nat
deriving Repr, DecidableEq

/-- Modelled from the spec: the `Task` class of the absent `./file`
module — `FileBase` fields, the branch assigned at processing time, and
the ordered waiter lists (`resolvers`/`rejectors`, pushed in pairs);
spec §3 "Task". Waiters are identified by tokens. -/
structure Task where
  hash : String
  name : String
  size : Nat
  branch : Nat
  resolvers : List Nat
  rejectors : List Nat
deriving Repr, DecidableEq

/-- The in-memory queue state of `JsdelivrAssets`: the FIFO `taskQueue`
array and the `taskMap` hash index (association list standing for the
JavaScript `Map`, which has at most one entry per key). -/
structure QueueState where
  taskQueue : List Task
  taskMap : List (String × Task)
deriving Repr, DecidableEq

/-- A freshly constructed `Task` for a file: no waiters yet, branch not
yet assigned. -/
def newTask (f : FileBase) : Task :=
  ⟨f.hash, f.name, f.size, 0, [], []⟩

/-- `task.resolvers.push(resolve); task.rejectors.push(reject)`: attach
one more waiter to a task. -/
def pushWaiter (w : Nat) (t : Task) : Task :=
  { t with resolvers := t.resolvers ++ [w], rejectors := t.rejectors ++ [w] }

/-- `createTask` (lines 149-160): look the hash up in `taskMap`; if a
task exists, only attach the new waiter to it; otherwise construct a
task, push it to the back of `taskQueue`, index it in `taskMap`, and
attach the waiter.  The hash-directed map updates express the shared
mutation of the single aliased `Task` object. -/
def createTask (f : FileBase) (w : Nat) (s : QueueState) : QueueState :=
  match s.taskMap.find? (fun q => q.1 == f.hash) with
  | some _ =>
    { taskQueue := s.taskQueue.map fun t =>
        if t.hash == f.hash then pushWaiter w t else t,
      taskMap := s.taskMap.map fun q =>
        if q.1 == f.hash then (q.1, pushWaiter w q.2) else q }
  | none =>
    let t := pushWaiter w (newTask f)
    { taskQueue := s.taskQueue ++ [t],
      taskMap := s.taskMap ++ [(f.hash, t)] }

/-- Cumulative byte size of a list of tasks. -/
def sumSize (ts : List Task) : Nat :=
  (ts.map Task.size).sum

/-- Recursion underlying `getTasks`: `size` is the running cumulative
total; pop while the total stays within `avail`, stop at the first task
that would push it over. -/
def getTasksAux (queue : List Task) (size avail : Nat) : List Task × List Task :=
  match queue with
  | [] => ([], [])
  | t :: rest =>
    if avail < size + t.size then ([], t :: rest)
    else
      let p := getTasksAux rest (size + t.size) avail
      (t :: p.1, p.2)

/-- `getTasks` (lines 162-173): drain a budget-bounded batch off the
front of the queue, returning the batch and the remaining queue. -/
def getTasks (queue : List Task) (avail : Nat) : List Task × List Task :=
  getTasksAux queue 0 avail

/-! ### Branch selection and checkout -/

/-- A durable record of the `jsdelivr` table as the plugin reads it:
content hash, display name, byte size and integer branch id. -/
structure AssetRecord where
  hash : String
  name : String
  size : Nat
  branch : Nat
deriving Repr, DecidableEq

/-- `Branch` from the source: integer branch id plus the aggregated byte
size committed to it. -/
structure Branch where
  branch : Nat
  size : Nat
deriving Repr, DecidableEq

/-- The `aggregate` call of `getBranch`: sum of the sizes of the records
assigned to `branch`. -/
def aggregateSize (db : List AssetRecord) (branch : Nat) : Nat :=
  ((db.filter fun r => r.branch == branch).map AssetRecord.size).sum

/-- `getBranch` (lines 105-125): read one record (the store's first — no
explicit order is requested), and return a fresh branch at `offset` when
the store is empty; otherwise roll over to `branch + offset` with zero
size when `forceNew` is set or the aggregated size has reached
`maxBranchSize`, else stay on the current branch with its aggregated
size. -/
def getBranch (db : List AssetRecord) (maxBranchSize : Nat)
    (forceNew : Bool) (offset : Nat) : Branch :=
  match db.head? with
  | none => ⟨offset, 0⟩
  | some file =>
    if forceNew then ⟨file.branch + offset, 0⟩
    else
      let size := aggregateSize db file.branch
      if maxBranchSize ≤ size then ⟨file.branch + offset, 0⟩
      else ⟨file.branch, size⟩

/-- The two git paths of `checkout` (lines 127-147): `orphan` creates an
orphan branch and clears the working tree; `existing` force-checks out
the already-populated branch. -/
inductive CheckoutMode where
  | orphan : CheckoutMode
  | existing : CheckoutMode
deriving Repr, DecidableEq

/-- `checkout`: resolve the target via `getBranch` and take the orphan
path exactly when the returned size is zero (the source tests
`!res.size`). -/
def checkout (db : List AssetRecord) (maxBranchSize : Nat)
    (forceNew : Bool) (offset : Nat) : Branch × CheckoutMode :=
  let res := getBranch db maxBranchSize forceNew offset
  if res.size = 0 then (res, CheckoutMode.orphan) else (res, CheckoutMode.existing)

/-! ### Batch settlement -/

/-- Per-waiter settlement outcome: resolution with a public URL or
rejection with an error token. -/
inductive Settlement where
  | resolved : String → Settlement
  | rejected : Nat → Settlement
deriving Repr, DecidableEq

/-- `taskMap.delete(hash)` on the association-list model of the map:
drop the entry (a JavaScript `Map` holds at most one) with that key. -/
def mapDelete (m : List (String × Task)) (h : String) : List (String × Task) :=
  m.filter fun q => !(q.1 == h)

/-- Modelled from the spec: `Task.resolve` of the absent `./file` module
resolves every attached waiter with the task's public URL (spec §4.2,
§4.5 `Settle`). -/
def taskResolve (gh : GitHubConfig) (t : Task) : List (Nat × Settlement) :=
  t.resolvers.map fun w =>
    (w, Settlement.resolved (toPublicUrl gh ⟨t.hash, t.name, t.branch⟩))

/-- Modelled from the spec: `Task.reject(e)` of the absent `./file`
module rejects every attached waiter with the triggering error
(spec §4.2). -/
def taskReject (e : Nat) (t : Task) : List (Nat × Settlement) :=
  t.rejectors.map fun w => (w, Settlement.rejected e)

/-- Result of processing one drained batch: the records upserted into
the database, the per-waiter settlement outcomes, and the queue state
after the `finally` block ran. -/
structure BatchResult where
  upserted : List Task
  outcomes : List (Nat × Settlement)
  state : QueueState
deriving Repr, DecidableEq

/-- The batch section of `mainLoop` (lines 190-214): assign the branch
to every task and move its bytes (`rename`), then
`git add`/`commit`/`push`, then upsert the records, then resolve every
task; any failure transfers to the `catch` block, which rejects every
task with that same error and skips the remaining steps; the `finally`
block deletes every task's hash from `taskMap` in all cases.  The
outcome of each external effect is injected as data (`none` =
success). -/
def settleBatch (gh : GitHubConfig) (branchId : Nat) (tasks : List Task)
    (moveErr pushErr upsertErr : Option Nat) (s : QueueState) : BatchResult :=
  let assigned := tasks.map fun t => { t with branch := branchId }
  let after : QueueState :=
    { taskQueue := s.taskQueue,
      taskMap := assigned.foldl (fun m t => mapDelete m t.hash) s.taskMap }
  match moveErr with
  | some e => ⟨[], assigned.flatMap (taskReject e), after⟩
  | none =>
    match pushErr with
    | some e => ⟨[], assigned.flatMap (taskReject e), after⟩
    | none =>
      match upsertErr with
      | some e => ⟨[], assigned.flatMap (taskReject e), after⟩
      | none => ⟨assigned, assigned.flatMap (taskResolve gh), after⟩

/-! ### Upload and the polling loop -/

/-- Result of one `upload` call after hashing: the immediately returned
URL on a dedup hit (`some url`), the queue state afterwards, and whether
the bytes were written to scratch storage. -/
structure UploadResult where
  immediate : Option String
  state : QueueState
  wroteScratch : Bool
deriving Repr, DecidableEq

/-- `upload` (lines 235-244) after the digest is computed: look the
digest up in the durable store; on a hit return the existing record's
public URL with no queueing and no scratch write; on a miss write the
bytes to scratch and enqueue through `createTask`. -/
def upload (gh : GitHubConfig) (db : List AssetRecord) (s : QueueState)
    (hash name : String) (size : Nat) (w : Nat) : UploadResult :=
  match db.find? (fun r => r.hash == hash) with
  | some file => ⟨some (toPublicUrl gh ⟨file.hash, file.name, file.branch⟩), s, false⟩
  | none => ⟨none, createTask ⟨hash, name, size⟩ w s, true⟩

/-- What a `mainLoop` iteration decides before any git work: sleep or
process the queue. -/
inductive LoopAction where
  | sleep : Nat → LoopAction
  | process : LoopAction
deriving Repr, DecidableEq

/-- The guard at the top of `mainLoop` (lines 176-178): with an empty
task queue the iteration only sleeps for `flushInterval`; otherwise it
proceeds to process the queue. -/
def mainLoopIdleAction (flushInterval : Nat) (s : QueueState) : LoopAction :=
  if s.taskQueue.isEmpty then LoopAction.sleep flushInterval else LoopAction.process

/-- The `start` loop (lines 77-85): while `isActive`, await `mainLoop`
and catch (log) any error it throws.  `active i` is the `isActive` value
read before iteration `i`; `iter i` is the outcome of the `i`-th
`mainLoop` call (`Except.error` = the call threw).  Returns `some k`
when the loop exited after completing `k` iterations, `none` when `fuel`
ran out with the loop still running. -/
def startRun : Nat → (Nat → Bool) → (Nat → Except Nat LoopAction) → Option Nat
  | 0, _, _ => none
  | fuel + 1, active, iter =>
    if active 0 then
      match iter 0 with
      | Except.ok _ =>
        (startRun fuel (fun i => active (i + 1)) fun i => iter (i + 1)).map (· + 1)
      | Except.error _ =>
        (startRun fuel (fun i => active (i + 1)) fun i => iter (i + 1)).map (· + 1)
    else some 0

/-! ### Theorems for claims C1 and C2 -/

/-- Claim C2: the claim says `toBranchName` zero-pads the base-36 rendering to
width 8.  The code calls `padStart(8)` with no fill argument, which pads
with spaces: at id 2 it returns seven spaces followed by `2`, not
`00000002`. -/
theorem toBranchName_space_padded :
    toBranchName 2 = "       2" ∧ specBranchName 2 = "00000002" ∧
      toBranchName 2 ≠ specBranchName 2 := by
  refine ⟨rfl, rfl, ?_⟩
  decide

/-- Claim C1: the claim says `toPublicUrl` renders the branch in base-36 padded
to width 8.  The code interpolates the raw integer branch id in decimal:
for the record with hash `abc`, name `f.png`, branch 2 and mirror
coordinates user `u`, repo `r` it produces `...@2/abc-f.png`, which
differs from the spec's `...@<base36(2) padded to 8>/abc-f.png`. -/
theorem toPublicUrl_decimal_branch :
    toPublicUrl ⟨"u", "r"⟩ ⟨"abc", "f.png", 2⟩ =
      "https://cdn.jsdelivr.net/gh/u/r@2/abc-f.png" ∧
    toPublicUrl ⟨"u", "r"⟩ ⟨"abc", "f.png", 2⟩ ≠
      specPublicUrl ⟨"u", "r"⟩ ⟨"abc", "f.png", 2⟩ := by
  refine ⟨rfl, ?_⟩
  decide

/-! ### Theorems for claim C3 (drain is a maximal FIFO batch) -/

lemma getTasksAux_append (queue : List Task) :
    ∀ size avail,
      (getTasksAux queue size avail).1 ++ (getTasksAux queue size avail).2 = queue := by
  induction queue with
  | nil => intro size avail; simp [getTasksAux]
  | cons t rest ih =>
    intro size avail
    simp only [getTasksAux]
    by_cases h : avail < size + t.size
    · simp [h]
    · simp [h, ih]

lemma getTasksAux_within (queue : List Task) :
    ∀ size avail, size ≤ avail →
      size + sumSize (getTasksAux queue size avail).1 ≤ avail := by
  induction queue with
  | nil => intro size avail hle; simpa [getTasksAux, sumSize] using hle
  | cons t rest ih =>
    intro size avail hle
    simp only [getTasksAux]
    by_cases h : avail < size + t.size
    · simpa [h, sumSize] using hle
    · have hrec := ih (size + t.size) avail (by omega)
      simp only [h, if_false, sumSize, List.map_cons, List.sum_cons] at *
      omega

lemma getTasksAux_stop (queue : List Task) :
    ∀ size avail t rest,
      (getTasksAux queue size avail).2 = t :: rest →
      avail < size + sumSize (getTasksAux queue size avail).1 + t.size := by
  induction queue with
  | nil => intro size avail t rest h; simp [getTasksAux] at h
  | cons u urest ih =>
    intro size avail t rest h
    simp only [getTasksAux] at h ⊢
    by_cases hu : avail < size + u.size
    · rw [if_pos hu] at h ⊢
      injection h with h1 h2
      subst h1
      simp only [sumSize, List.map_nil, List.sum_nil]
      omega
    · rw [if_neg hu] at h ⊢
      have hrec := ih (size + u.size) avail t rest h
      simp only [sumSize, List.map_cons, List.sum_cons] at *
      omega

lemma getTasksAux_maximal (queue : List Task) :
    ∀ size avail n, n ≤ queue.length →
      size + sumSize (queue.take n) ≤ avail →
      n ≤ (getTasksAux queue size avail).1.length := by
  induction queue with
  | nil =>
    intro size avail n hn _
    have hn0 : n = 0 := Nat.le_zero.mp (by simpa using hn)
    subst hn0
    exact Nat.zero_le _
  | cons t rest ih =>
    intro size avail n hn hfit
    match n with
    | 0 => exact Nat.zero_le _
    | Nat.succ m =>
      simp only [List.take_succ_cons, sumSize, List.map_cons, List.sum_cons] at hfit
      have hts : ¬ avail < size + t.size := by omega
      simp only [getTasksAux, hts, if_false, List.length_cons]
      have := ih (size + t.size) avail m (by simpa using hn)
        (by simp only [sumSize]; omega)
      omega

/-- Claim C3: `getTasks` pops tasks strictly from the front of the FIFO
queue while the cumulative size stays within the budget, stops without
popping at the first task that would exceed it, and returns exactly a
maximal prefix of the queue; with sizes `[10, 10, 30]` and budget 25 it
returns only the first two tasks. -/
theorem getTasks_drains_maximal_front (queue : List Task) (avail : Nat) :
    (getTasks queue avail).1 ++ (getTasks queue avail).2 = queue ∧
    sumSize (getTasks queue avail).1 ≤ avail ∧
    (∀ t rest, (getTasks queue avail).2 = t :: rest →
      avail < sumSize (getTasks queue avail).1 + t.size) ∧
    (∀ n, n ≤ queue.length → sumSize (queue.take n) ≤ avail →
      n ≤ (getTasks queue avail).1.length) ∧
    (∀ t₁ t₂ t₃ : Task, t₁.size = 10 → t₂.size = 10 → t₃.size = 30 →
      getTasks [t₁, t₂, t₃] 25 = ([t₁, t₂], [t₃])) := by
  refine ⟨getTasksAux_append queue 0 avail, ?_, ?_, ?_, ?_⟩
  · simpa using getTasksAux_within queue 0 avail (Nat.zero_le _)
  · intro t rest h
    simpa using getTasksAux_stop queue 0 avail t rest h
  · intro n hn hfit
    simpa using getTasksAux_maximal queue 0 avail n hn (by simpa using hfit)
  · intro t₁ t₂ t₃ h₁ h₂ h₃
    simp [getTasks, getTasksAux, h₁, h₂, h₃]

/-- Closed instance of C3 at the queue of sizes `[10, 10, 30]` with
budget 25. -/
theorem getTasks_drains_maximal_front_witness :
    getTasks [(⟨"a", "a", 10, 0, [], []⟩ : Task), ⟨"b", "b", 10, 0, [], []⟩,
        ⟨"c", "c", 30, 0, [], []⟩] 25 =
      ([⟨"a", "a", 10, 0, [], []⟩, ⟨"b", "b", 10, 0, [], []⟩],
        [⟨"c", "c", 30, 0, [], []⟩]) ∧
    25 < sumSize (getTasks [(⟨"a", "a", 10, 0, [], []⟩ : Task),
        ⟨"b", "b", 10, 0, [], []⟩, ⟨"c", "c", 30, 0, [], []⟩] 25).1 + 30 ∧
    2 ≤ (getTasks [(⟨"a", "a", 10, 0, [], []⟩ : Task), ⟨"b", "b", 10, 0, [], []⟩,
        ⟨"c", "c", 30, 0, [], []⟩] 25).1.length := by
  have h := getTasks_drains_maximal_front
    [(⟨"a", "a", 10, 0, [], []⟩ : Task), ⟨"b", "b", 10, 0, [], []⟩,
      ⟨"c", "c", 30, 0, [], []⟩] 25
  exact ⟨h.2.2.2.2 _ _ _ rfl rfl rfl, h.2.2.1 ⟨"c", "c", 30, 0, [], []⟩ [] (by decide),
    h.2.2.2.1 2 (by decide) (by decide)⟩

/-! ### Theorems for claim C4 (one task per hash) -/

lemma find?_map_pushWaiter (m : List (String × Task)) (h : String) (w : Nat) :
    (m.map fun q => if q.1 == h then (q.1, pushWaiter w q.2) else q).find?
        (fun q => q.1 == h) =
      (m.find? fun q => q.1 == h).map fun q => (q.1, pushWaiter w q.2) := by
  induction m with
  | nil => rfl
  | cons p rest ih =>
    simp only [List.map_cons, List.find?_cons]
    cases hb : p.1 == h with
    | true => simp [hb]
    | false =>
      have hb₂ : ((if false = true then (p.1, pushWaiter w p.2) else p).1 == h) = false := hb
      rw [hb₂]
      exact ih

lemma map_pushWaiter_keys (m : List (String × Task)) (h : String) (w : Nat) :
    (m.map fun q => if q.1 == h then (q.1, pushWaiter w q.2) else q).map Prod.fst =
      m.map Prod.fst := by
  rw [List.map_map]
  apply List.map_congr_left
  intro q _
  by_cases hq : q.1 = h
  · simp [Function.comp, hq]
  · simp [Function.comp, hq]

/-- Claim C4: at most one task exists per content hash.  When `taskMap`
already indexes a task for the file's hash, `createTask` only attaches
another waiter to that task — same queue length, same index keys, the
indexed task extended by the new waiter; a new task is created, pushed
to the queue and indexed only when no entry for the hash exists. -/
theorem createTask_one_task_per_hash (s : QueueState) (f : FileBase) (w : Nat) :
    (∀ p, s.taskMap.find? (fun q => q.1 == f.hash) = some p →
      (createTask f w s).taskQueue.length = s.taskQueue.length ∧
      (createTask f w s).taskMap.map Prod.fst = s.taskMap.map Prod.fst ∧
      (createTask f w s).taskMap.find? (fun q => q.1 == f.hash) =
        some (p.1, pushWaiter w p.2)) ∧
    (s.taskMap.find? (fun q => q.1 == f.hash) = none →
      (createTask f w s).taskQueue = s.taskQueue ++ [pushWaiter w (newTask f)] ∧
      (createTask f w s).taskMap = s.taskMap ++ [(f.hash, pushWaiter w (newTask f))]) := by
  constructor
  · intro p hp
    simp only [createTask, hp]
    refine ⟨List.length_map _ _, map_pushWaiter_keys _ _ _, ?_⟩
    rw [find?_map_pushWaiter, hp]
    rfl
  · intro hn
    simp [createTask, hn]

/-- Closed instance of C4: attaching to an indexed task leaves the queue
length unchanged and extends the indexed task's waiters; on an empty map
a fresh task is appended and indexed. -/
theorem createTask_one_task_per_hash_witness :
    (createTask ⟨"h", "n", 5⟩ 2
      ⟨[⟨"h", "n", 5, 0, [1], [1]⟩],
        [("h", ⟨"h", "n", 5, 0, [1], [1]⟩)]⟩).taskQueue.length = 1 ∧
    (createTask ⟨"h", "n", 5⟩ 2
      ⟨[⟨"h", "n", 5, 0, [1], [1]⟩],
        [("h", ⟨"h", "n", 5, 0, [1], [1]⟩)]⟩).taskMap.find?
        (fun q => q.1 == "h") = some ("h", ⟨"h", "n", 5, 0, [1, 2], [1, 2]⟩) ∧
    (createTask ⟨"h", "n", 5⟩ 3 ⟨[], []⟩).taskMap =
      [("h", ⟨"h", "n", 5, 0, [3], [3]⟩)] := by
  have h₁ := (createTask_one_task_per_hash
      ⟨[⟨"h", "n", 5, 0, [1], [1]⟩], [("h", ⟨"h", "n", 5, 0, [1], [1]⟩)]⟩
      ⟨"h", "n", 5⟩ 2).1 ("h", ⟨"h", "n", 5, 0, [1], [1]⟩) (by decide)
  have h₂ := (createTask_one_task_per_hash ⟨[], []⟩ ⟨"h", "n", 5⟩ 3).2 rfl
  exact ⟨h₁.1, h₁.2.2, h₂.2⟩

/-! ### Theorems for claim C5 (atomic batch settlement) -/

lemma flatMap_length {α β : Type} (l : List α) (f : α → List β) :
    (l.flatMap f).length = (l.map fun a => (f a).length).sum := by
  induction l with
  | nil => rfl
  | cons a rest ih => simp [List.flatMap_cons, ih]

/-- Claim C5: batch settlement is atomic with respect to errors.  When
the commit-and-push step fails, the upsert is skipped (zero records) and
every waiter of every task in the batch is rejected with the same
triggering error — their number is the batch's total waiter count; when
the batch succeeds, every waiter of every task is resolved (with a
public URL). -/
theorem settleBatch_atomic (gh : GitHubConfig) (b : Nat) (tasks : List Task)
    (e : Nat) (s : QueueState) :
    ((settleBatch gh b tasks none (some e) none s).upserted = [] ∧
      (∀ p ∈ (settleBatch gh b tasks none (some e) none s).outcomes,
        p.2 = Settlement.rejected e) ∧
      (settleBatch gh b tasks none (some e) none s).outcomes.length =
        (tasks.map fun t => t.rejectors.length).sum) ∧
    ((∀ p ∈ (settleBatch gh b tasks none none none s).outcomes,
        ∃ url, p.2 = Settlement.resolved url) ∧
      (settleBatch gh b tasks none none none s).outcomes.length =
        (tasks.map fun t => t.resolvers.length).sum) := by
  refine ⟨⟨rfl, ?_, ?_⟩, ?_, ?_⟩
  · intro p hp
    simp only [settleBatch, taskReject, List.mem_flatMap, List.mem_map] at hp
    obtain ⟨a, -, w, -, rfl⟩ := hp
    rfl
  · simp only [settleBatch, flatMap_length, List.map_map]
    congr 1
    apply List.map_congr_left
    intro t _
    simp [taskReject, Function.comp]
  · intro p hp
    simp only [settleBatch, taskResolve, List.mem_flatMap, List.mem_map] at hp
    obtain ⟨a, -, w, -, rfl⟩ := hp
    exact ⟨_, rfl⟩
  · simp only [settleBatch, flatMap_length, List.map_map]
    congr 1
    apply List.map_congr_left
    intro t _
    simp [taskResolve, Function.comp]

/-- Closed instance of C5: a two-waiter batch whose push fails upserts
nothing and rejects both waiters with the injected error. -/
theorem settleBatch_atomic_witness :
    (settleBatch ⟨"u", "r"⟩ 3 [⟨"h1", "n1", 1, 0, [1, 2], [1, 2]⟩]
      none (some 7) none ⟨[], []⟩).upserted = [] ∧
    ((1, Settlement.rejected 7) : Nat × Settlement).2 = Settlement.rejected 7 ∧
    (settleBatch ⟨"u", "r"⟩ 3 [⟨"h1", "n1", 1, 0, [1, 2], [1, 2]⟩]
      none (some 7) none ⟨[], []⟩).outcomes.length = 2 := by
  have h := settleBatch_atomic ⟨"u", "r"⟩ 3 [⟨"h1", "n1", 1, 0, [1, 2], [1, 2]⟩] 7 ⟨[], []⟩
  exact ⟨h.1.1, h.1.2.1 (1, Settlement.rejected 7) (by decide), h.1.2.2⟩

/-! ### Theorems for claim C8 (index entries removed on settlement) -/

lemma find?_mapDelete_self (m : List (String × Task)) (h : String) :
    (mapDelete m h).find? (fun q => q.1 == h) = none := by
  induction m with
  | nil => rfl
  | cons p rest ih =>
    cases hb : p.1 == h with
    | true => simp [mapDelete, List.filter_cons, hb]
    | false => simp [mapDelete, List.filter_cons, List.find?_cons, hb]

lemma find?_mapDelete_none (m : List (String × Task)) (h g : String)
    (hn : m.find? (fun q => q.1 == h) = none) :
    (mapDelete m g).find? (fun q => q.1 == h) = none := by
  induction m with
  | nil => rfl
  | cons p rest ih =>
    simp only [List.find?_cons] at hn
    cases hb : p.1 == h with
    | true => simp [hb] at hn
    | false =>
      simp only [hb] at hn
      cases hg : p.1 == g with
      | true => simpa [mapDelete, List.filter_cons, hg] using ih hn
      | false =>
        simpa [mapDelete, List.filter_cons, List.find?_cons, hg, hb] using ih hn

lemma foldl_mapDelete_preserves_none (tasks : List Task) :
    ∀ (m : List (String × Task)) (h : String),
      m.find? (fun q => q.1 == h) = none →
      (tasks.foldl (fun m t => mapDelete m t.hash) m).find? (fun q => q.1 == h) = none := by
  induction tasks with
  | nil => intro m h hn; simpa using hn
  | cons t rest ih =>
    intro m h hn
    simp only [List.foldl_cons]
    exact ih _ h (find?_mapDelete_none _ h t.hash hn)

lemma foldl_mapDelete_removes (tasks : List Task) :
    ∀ (m : List (String × Task)) (h : String), (∃ t ∈ tasks, t.hash = h) →
      (tasks.foldl (fun m t => mapDelete m t.hash) m).find? (fun q => q.1 == h) = none := by
  induction tasks with
  | nil => intro m h hmem; simp at hmem
  | cons t rest ih =>
    intro m h hmem
    simp only [List.foldl_cons]
    obtain ⟨u, hu, hh⟩ := hmem
    rcases List.mem_cons.mp hu with rfl | hu₂
    · exact foldl_mapDelete_preserves_none rest _ h (hh ▸ find?_mapDelete_self m u.hash)
    · exact ih _ h ⟨u, hu₂, hh⟩

/-- Claim C8: once a drained batch settles — by success or by failure —
the `taskMap` entry of every task in the batch is removed while the
queue is untouched (no re-queue, no retry); a subsequent `createTask`
for such a hash therefore finds no indexed task and starts a fresh one,
appended to the queue and newly indexed. -/
theorem settleBatch_removes_index (gh : GitHubConfig) (b : Nat)
    (tasks : List Task) (moveErr pushErr upsertErr : Option Nat) (s : QueueState) :
    (settleBatch gh b tasks moveErr pushErr upsertErr s).state.taskQueue = s.taskQueue ∧
    ∀ t ∈ tasks,
      (settleBatch gh b tasks moveErr pushErr upsertErr s).state.taskMap.find?
          (fun q => q.1 == t.hash) = none ∧
      ∀ (f : FileBase) (w : Nat), f.hash = t.hash →
        (createTask f w
            (settleBatch gh b tasks moveErr pushErr upsertErr s).state).taskQueue =
          (settleBatch gh b tasks moveErr pushErr upsertErr s).state.taskQueue ++
            [pushWaiter w (newTask f)] ∧
        (createTask f w
            (settleBatch gh b tasks moveErr pushErr upsertErr s).state).taskMap =
          (settleBatch gh b tasks moveErr pushErr upsertErr s).state.taskMap ++
            [(f.hash, pushWaiter w (newTask f))] := by
  have hstate : (settleBatch gh b tasks moveErr pushErr upsertErr s).state =
      ⟨s.taskQueue, (tasks.map fun t => { t with branch := b }).foldl
        (fun m t => mapDelete m t.hash) s.taskMap⟩ := by
    rcases moveErr with _ | e₁ <;> rcases pushErr with _ | e₂ <;>
      rcases upsertErr with _ | e₃ <;> rfl
  refine ⟨by rw [hstate], ?_⟩
  intro t ht
  have hmap : (settleBatch gh b tasks moveErr pushErr upsertErr s).state.taskMap.find?
      (fun q => q.1 == t.hash) = none := by
    rw [hstate]
    exact foldl_mapDelete_removes _ _ _
      ⟨{ t with branch := b }, List.mem_map_of_mem _ ht, rfl⟩
  refine ⟨hmap, ?_⟩
  intro f w hf
  have hn : (settleBatch gh b tasks moveErr pushErr upsertErr s).state.taskMap.find?
      (fun q => q.1 == f.hash) = none := by
    rw [hf]; exact hmap
  simp [createTask, hn]

/-- Closed instance of C8: after a failed one-task batch the task's hash
is no longer indexed and a new `upload` admission starts a fresh task. -/
theorem settleBatch_removes_index_witness :
    (settleBatch ⟨"u", "r"⟩ 2 [⟨"h", "n", 5, 0, [1], [1]⟩] none (some 7) none
      ⟨[], [("h", ⟨"h", "n", 5, 0, [1], [1]⟩)]⟩).state.taskMap.find?
        (fun q => q.1 == "h") = none ∧
    (createTask ⟨"h", "n", 5⟩ 9 (settleBatch ⟨"u", "r"⟩ 2 [⟨"h", "n", 5, 0, [1], [1]⟩]
        none (some 7) none ⟨[], [("h", ⟨"h", "n", 5, 0, [1], [1]⟩)]⟩).state).taskQueue =
      (settleBatch ⟨"u", "r"⟩ 2 [⟨"h", "n", 5, 0, [1], [1]⟩] none (some 7) none
        ⟨[], [("h", ⟨"h", "n", 5, 0, [1], [1]⟩)]⟩).state.taskQueue ++
        [pushWaiter 9 (newTask ⟨"h", "n", 5⟩)] := by
  have h := (settleBatch_removes_index ⟨"u", "r"⟩ 2 [⟨"h", "n", 5, 0, [1], [1]⟩]
      none (some 7) none ⟨[], [("h", ⟨"h", "n", 5, 0, [1], [1]⟩)]⟩).2
      ⟨"h", "n", 5, 0, [1], [1]⟩ (by decide)
  exact ⟨h.1, (h.2 ⟨"h", "n", 5⟩ 9 rfl).1⟩

/-! ### Theorems for claims C6 and C10 (branch rollover and empty store) -/

/-- Claim C6: with at least one record in the store, `getBranch` rolls
over to `branch + offset` with zero size exactly when `forceNew` is set
or the current branch's aggregated size has reached the ceiling, and
otherwise stays on the current branch with its aggregated size;
`checkout` takes the orphan path (clearing the working tree) exactly
when the returned branch has zero size. -/
theorem getBranch_rollover_at_capacity (db : List AssetRecord) (maxSize : Nat)
    (forceNew : Bool) (offset : Nat) (file : AssetRecord)
    (hdb : db.head? = some file) :
    (getBranch db maxSize forceNew offset =
      if forceNew = true ∨ maxSize ≤ aggregateSize db file.branch
      then ⟨file.branch + offset, 0⟩
      else ⟨file.branch, aggregateSize db file.branch⟩) ∧
    ((checkout db maxSize forceNew offset).2 = CheckoutMode.orphan ↔
      (getBranch db maxSize forceNew offset).size = 0) := by
  constructor
  · simp only [getBranch, hdb]
    cases forceNew with
    | true => simp
    | false =>
      by_cases hle : maxSize ≤ aggregateSize db file.branch
      · simp [hle]
      · simp [hle]
  · simp only [checkout]
    by_cases hz : (getBranch db maxSize forceNew offset).size = 0
    · simp [hz]
    · simp [hz]

/-- Closed instance of C6: a single 10-byte record on branch 5 with a
7-byte ceiling. -/
theorem getBranch_rollover_at_capacity_witness :
    (getBranch [(⟨"h", "n", 10, 5⟩ : AssetRecord)] 7 false 1 =
      if false = true ∨ 7 ≤ aggregateSize [(⟨"h", "n", 10, 5⟩ : AssetRecord)] 5
      then ⟨5 + 1, 0⟩
      else ⟨5, aggregateSize [(⟨"h", "n", 10, 5⟩ : AssetRecord)] 5⟩) ∧
    ((checkout [(⟨"h", "n", 10, 5⟩ : AssetRecord)] 7 false 1).2 = CheckoutMode.orphan ↔
      (getBranch [(⟨"h", "n", 10, 5⟩ : AssetRecord)] 7 false 1).size = 0) :=
  getBranch_rollover_at_capacity [⟨"h", "n", 10, 5⟩] 7 false 1 ⟨"h", "n", 10, 5⟩ rfl

/-- Claim C10: on an empty store `getBranch` ignores `forceNew` and
returns the branch at `offset` with zero size; in particular the forced
rollover `checkout(true)` of the main loop targets the same branch id as
the initial `checkout()` when the store is empty. -/
theorem getBranch_empty_store (maxSize : Nat) (forceNew : Bool) (offset : Nat) :
    getBranch [] maxSize forceNew offset = ⟨offset, 0⟩ ∧
    (checkout [] maxSize true 1).1.branch = (checkout [] maxSize false 1).1.branch :=
  ⟨rfl, rfl⟩

/-! ### Theorem for claim C7 (dedup hit is effect-free) -/

/-- Claim C7: when the digest already has a durable record, `upload`
returns that record's public URL immediately: the queue state is
unchanged (no task created, nothing queued) and nothing is written to
scratch storage. -/
theorem upload_dedup_hit (gh : GitHubConfig) (db : List AssetRecord)
    (s : QueueState) (hash name : String) (size w : Nat) (file : AssetRecord)
    (hfind : db.find? (fun r => r.hash == hash) = some file) :
    upload gh db s hash name size w =
      ⟨some (toPublicUrl gh ⟨file.hash, file.name, file.branch⟩), s, false⟩ := by
  simp [upload, hfind]

/-- Closed instance of C7: a store holding the digest's record makes
`upload` return its URL with untouched state and no scratch write. -/
theorem upload_dedup_hit_witness :
    upload ⟨"u", "r"⟩ [⟨"abc", "f.png", 5, 2⟩] ⟨[], []⟩ "abc" "g.png" 5 1 =
      ⟨some (toPublicUrl ⟨"u", "r"⟩ ⟨"abc", "f.png", 2⟩), ⟨[], []⟩, false⟩ :=
  upload_dedup_hit ⟨"u", "r"⟩ [⟨"abc", "f.png", 5, 2⟩] ⟨[], []⟩ "abc" "g.png" 5 1
    ⟨"abc", "f.png", 5, 2⟩ rfl

/-! ### Theorem for claim C9 (the loop survives errors) -/

lemma startRun_iter_irrel :
    ∀ (fuel : Nat) (active : Nat → Bool) (iter iter' : Nat → Except Nat LoopAction),
      startRun fuel active iter = startRun fuel active iter'
  | 0, _, _, _ => rfl
  | fuel + 1, active, iter, iter' => by
    simp only [startRun]
    by_cases h : active 0 = true
    · have hrec := startRun_iter_irrel fuel (fun i => active (i + 1))
        (fun i => iter (i + 1)) (fun i => iter' (i + 1))
      cases iter 0 <;> cases iter' 0 <;> simp [h, hrec]
    · simp [h]

lemma startRun_exit_iff_inactive :
    ∀ (fuel : Nat) (active : Nat → Bool) (iter : Nat → Except Nat LoopAction) (k : Nat),
      startRun fuel active iter = some k →
      active k = false ∧ ∀ i, i < k → active i = true
  | 0, _, _, _ => by intro h; simp [startRun] at h
  | fuel + 1, active, iter, k => by
    intro h
    simp only [startRun] at h
    by_cases ha : active 0 = true
    · rw [if_pos ha] at h
      have h₂ : (startRun fuel (fun i => active (i + 1))
          (fun i => iter (i + 1))).map (· + 1) = some k := by
        cases hit : iter 0 with
        | ok a => rw [hit] at h; exact h
        | error e => rw [hit] at h; exact h
      rcases hmap : startRun fuel (fun i => active (i + 1)) (fun i => iter (i + 1)) with
        _ | j
      · rw [hmap] at h₂; simp at h₂
      · rw [hmap] at h₂
        obtain rfl : j + 1 = k := by simpa using h₂
        have hrec := startRun_exit_iff_inactive fuel (fun i => active (i + 1))
          (fun i => iter (i + 1)) j hmap
        refine ⟨hrec.1, ?_⟩
        intro i hi
        match i with
        | 0 => exact ha
        | i + 1 => exact hrec.2 i (by omega)
    · rw [if_neg ha] at h
      obtain rfl : 0 = k := Option.some.inj h
      exact ⟨Bool.not_eq_true _ ▸ (by simpa using ha), by omega⟩

/-- Claim C9: the `start` loop never exits on an error — its result is
independent of the `mainLoop` outcomes, every error being caught and
logged; it exits exactly when `isActive` turns false (all earlier
iterations saw it true); and while the queue is empty an iteration only
sleeps for the configured flush interval. -/
theorem start_loop_never_exits_on_error (fuel : Nat) (active : Nat → Bool)
    (iter iter' : Nat → Except Nat LoopAction) :
    startRun fuel active iter = startRun fuel active iter' ∧
    (∀ k, startRun fuel active iter = some k →
      active k = false ∧ ∀ i, i < k → active i = true) ∧
    (∀ (fi : Nat) (s : QueueState), s.taskQueue = [] →
      mainLoopIdleAction fi s = LoopAction.sleep fi) := by
  refine ⟨startRun_iter_irrel fuel active iter iter', ?_, ?_⟩
  · intro k hk
    exact startRun_exit_iff_inactive fuel active iter k hk
  · intro fi s hs
    simp [mainLoopIdleAction, hs]

/-- Closed instance of C9: deactivation after one iteration stops the
loop there — also under a throwing iteration — and an empty queue only
sleeps. -/
theorem start_loop_never_exits_on_error_witness :
    startRun 3 (fun i => decide (i = 0)) (fun _ => Except.error 9) =
      startRun 3 (fun i => decide (i = 0)) (fun _ => Except.ok LoopAction.process) ∧
    ((fun i => decide (i = 0)) 1 = false ∧
      ∀ i, i < 1 → (fun i => decide (i = 0)) i = true) ∧
    mainLoopIdleAction 3 ⟨[], []⟩ = LoopAction.sleep 3 := by
  have h := start_loop_never_exits_on_error 3 (fun i => decide (i = 0))
    (fun _ => Except.error 9) (fun _ => Except.ok LoopAction.process)
  exact ⟨h.1, h.2.1 1 rfl, h.2.2 3 ⟨[], []⟩ rfl⟩

end Jsdelivr
